import Mathlib

/-!
Shallow embedding of the torch_xla AMax reduction IR node
(src/torch_xla/csrc/ops/amax.cpp and amax.h) together with the parts of
the surrounding IR/lowering layer it relies on (Node base, shape
inference helper, the backend max-over-dimensions primitive, the hash
combiner), which are not part of the provided sources and are therefore
modelled from the specification.
-/

namespace TorchXla

/-- An XLA shape, reduced to its dimension sizes (the only component the
reduction-node semantics depend on). -/
structure XlaShape where
  dims : List Nat
deriving DecidableEq, Repr

/-- Error taxonomy from the specification (ShapeMismatch, IndexOutOfRange,
LoweringError), plus the checked-access failure of `OpList::at`. -/
inductive Err where
  | IndexOutOfRange
  | ShapeMismatch
  | LoweringError
  | OperandAccessOutOfRange
deriving DecidableEq, Repr

/-- Modelled from the spec: the dimension-size transformation performed by the
backend "max over dimensions" primitive (`BuildMaxInDims`, whose source file
reduction.cpp is not among the provided sources). Walking the sizes with their
axis index: a reduced axis is kept as size 1 when `keepdim` is set and removed
otherwise; a non-reduced axis keeps its size. -/
def reduceSizes (dimensions : List Int) (keepdim : Bool) : Nat → List Nat → List Nat
  | _, [] => []
  | i, s :: rest =>
    if (i : Int) ∈ dimensions then
      if keepdim then 1 :: reduceSizes dimensions keepdim (i + 1) rest
      else reduceSizes dimensions keepdim (i + 1) rest
    else s :: reduceSizes dimensions keepdim (i + 1) rest

/-- Modelled from the spec: shape semantics of `BuildMaxInDims`. Every declared
reduction dimension must be a valid axis index of the input (IndexOutOfRange
otherwise, raised during the trial lowering and hence at node construction). -/
def BuildMaxInDimsShape (s : XlaShape) (dimensions : List Int) (keepdim : Bool) :
    Except Err XlaShape :=
  if dimensions.all (fun d => decide (0 ≤ d ∧ d < (s.dims.length : Int))) then
    .ok ⟨reduceSizes dimensions keepdim 0 s.dims⟩
  else
    .error .IndexOutOfRange

/-- Symbolic backend operation handle (`xla::XlaOp`): a parameter placeholder or
an application of the max-over-dimensions primitive. -/
inductive XlaOp where
  | param (index : Nat) (shape : XlaShape)
  | maxInDims (input : XlaOp) (dimensions : List Int) (keepdim : Bool)
deriving DecidableEq, Repr

instance : Inhabited XlaOp := ⟨.param 0 ⟨[]⟩⟩

/-- Modelled from the spec: the backend primitive that builds a
max-over-dimensions expression over an operand handle. -/
def BuildMaxInDims (input : XlaOp) (dimensions : List Int) (keepdim : Bool) : XlaOp :=
  .maxInDims input dimensions keepdim

/-- Modelled from the spec: the backend's symbolic shape of an expression,
propagating construction failures. -/
def XlaOp.shape : XlaOp → Except Err XlaShape
  | .param _ s => .ok s
  | .maxInDims x dimensions keepdim =>
      (XlaOp.shape x).bind fun s => BuildMaxInDimsShape s dimensions keepdim

/-- Modelled from the spec: `InferOutputShape` (infer_output_shape.cpp is not
among the provided sources) builds one parameter placeholder per input shape,
applies the trial lowering function and returns the shape of the resulting
expression, without executing anything. -/
def InferOutputShape (input_shapes : List XlaShape)
    (lower_fn : List XlaOp → XlaOp) : Except Err XlaShape :=
  (lower_fn (input_shapes.enum.map fun p => XlaOp.param p.1 p.2)).shape

/-- A `Value` edge: a reference to one output of a producing node. `id` models
the node object's identity (which output of which heap object), `hash` the
structural hash of the referenced output, `shape` its shape. -/
structure Value where
  id : Nat
  index : Nat
  shape : XlaShape
  hash : Nat
deriving DecidableEq, Repr

instance : Inhabited Value := ⟨⟨0, 0, ⟨[]⟩, 0⟩⟩

/-- Modelled from the spec: a deterministic two-argument hash combiner standing
for the `xla::util` hash utilities. -/
def HashCombine (a b : Nat) : Nat := Nat.pair a b

/-- Injective encoding of an int64 as a Nat, used to feed dimension indices to
the hash combiner. -/
def encodeInt (d : Int) : Nat := if d < 0 then 2 * d.natAbs - 1 else 2 * d.natAbs

/-- Fold a list of hashes into one value. -/
def hashList (l : List Nat) : Nat := l.foldl HashCombine 7

/-- Modelled from the spec: `xla::util::MHash(dimensions, keepdim)`, the
op-parameter hash seed of the AMax node. -/
def MHash (dimensions : List Int) (keepdim : Bool) : Nat :=
  HashCombine (hashList (dimensions.map encodeInt)) (if keepdim then 1 else 0)

/-- The aten operator symbols relevant here. -/
inductive AtenSymbol where
  | argmax
  | amax
  | max
deriving DecidableEq, Repr

/-- Hash value of an operator symbol. -/
def AtenSymbol.hashVal : AtenSymbol → Nat
  | .argmax => 0
  | .amax => 1
  | .max => 2

/-- Printable name of an operator symbol. -/
def AtenSymbol.str : AtenSymbol → String
  | .argmax => "aten::argmax"
  | .amax => "aten::amax"
  | .max => "aten::max"

/-- `ir::OpKind`: the operation-kind tag carried by a node. -/
structure OpKind where
  op : AtenSymbol
deriving DecidableEq, Repr

/-- The IR `Node` base data: operation kind, operand edges, the (eagerly
computed) output shape, declared output count and the structural hash. -/
structure Node where
  op : OpKind
  operands : List Value
  shape : XlaShape
  num_outputs : Nat
  hash : Nat
deriving DecidableEq, Repr

/-- Modelled from the spec: the structural hash of a node combines the
operation kind, the operand structural hashes and the op-parameter seed. -/
def Node.hashOf (op : OpKind) (operands : List Value) (hash_seed : Nat) : Nat :=
  HashCombine op.op.hashVal (HashCombine (hashList (operands.map Value.hash)) hash_seed)

/-- Modelled from the spec: the `Node` base constructor (ir.cpp is not among
the provided sources). The shape function is invoked once, eagerly, at
construction; a failure there aborts construction. -/
def Node.make (op : OpKind) (operands : List Value)
    (shape_fn : Unit → Except Err XlaShape) (num_outputs : Nat) (hash_seed : Nat) :
    Except Err Node :=
  (shape_fn ()).map fun s =>
    ⟨op, operands, s, num_outputs, Node.hashOf op operands hash_seed⟩

/-- Modelled from the spec: `Node::ToString`, the base string representation
(operation kind). -/
def Node.ToString (n : Node) : String := n.op.op.str

/-- A LoweringContext, abstracted to its registry: `GetOutputOp` yields the
backend handle emitted for a `Value`. -/
structure LoweringContext where
  GetOutputOp : Value → XlaOp

/-- `XlaOpVector`: the outputs a node's lowering returns. -/
abbrev XlaOpVector := List XlaOp

/-- `ReturnOp`: wrap a single freshly built backend handle as the node's
output vector. -/
def ReturnOp (op : XlaOp) : XlaOpVector := [op]

/-- The AMax node data (amax.cpp): the Node base plus the stored reduction
dimensions and keepdim flag. -/
structure AMax where
  base : Node
  dimensions_ : List Int
  keepdim_ : Bool
deriving DecidableEq, Repr

instance : Inhabited AMax := ⟨⟨⟨⟨.argmax⟩, [], ⟨[]⟩, 1, 0⟩, [], false⟩⟩

/-- amax.cpp `NodeOutputShape`: infer the output shape through a trial lowering
that applies `BuildMaxInDims` to the single operand placeholder. -/
def NodeOutputShape (input : Value) (dimensions : List Int) (keepdim : Bool) :
    Except Err XlaShape :=
  InferOutputShape [input.shape] fun operands =>
    BuildMaxInDims (operands.getD 0 default) dimensions keepdim

/-- amax.cpp `AMax::AMax`: the constructor tags the node with
`at::aten::argmax`, takes the single operand, computes the shape eagerly via
`NodeOutputShape`, declares one output, seeds the hash with
`MHash(dimensions, keepdim)` and stores `dimensions_` and `keepdim_`. -/
def AMax.make (input : Value) (dimensions : List Int) (keepdim : Bool) :
    Except Err AMax :=
  (Node.make ⟨AtenSymbol.argmax⟩ [input]
      (fun _ => NodeOutputShape input dimensions keepdim) 1
      (MHash dimensions keepdim)).map
    fun b => ⟨b, dimensions, keepdim⟩

/-- The `keepdim()` accessor from amax.h: returns the stored `keepdim_`. -/
def AMax.keepdim (n : AMax) : Bool := n.keepdim_

/-- The reduction-axes accessor as the spec intends it (the header's actual
`dim()` accessor returns an undeclared member `dim_` and cannot compile; see
the development notes on the header/implementation mismatch). -/
def AMax.dimensions (n : AMax) : List Int := n.dimensions_

/-- amax.cpp `AMax::Clone`: rebuild the node over `operands.at(0)` with the
stored `dimensions_` and `keepdim_`. -/
def AMax.Clone (n : AMax) (operands : List Value) : Except Err AMax :=
  match operands with
  | v :: _ => AMax.make v n.dimensions_ n.keepdim_
  | [] => .error .OperandAccessOutOfRange

/-- amax.cpp `AMax::Lower`: fetch the backend handle of operand 0 from the
context, apply `BuildMaxInDims` with the stored parameters, return it as the
single output. -/
def AMax.Lower (n : AMax) (loctx : LoweringContext) : XlaOpVector :=
  ReturnOp (BuildMaxInDims (loctx.GetOutputOp (n.base.operands.getD 0 default))
    n.dimensions_ n.keepdim_)

/-- Separator used by `absl::StrJoin` in `AMax::ToString`. -/
def commaSep : String := ", "

/-- amax.cpp `AMax::ToString`: the base representation with the joined
dimension list and the keepdim flag (streamed as 1/0) appended. -/
def AMax.ToString (n : AMax) : String :=
  Node.ToString n.base ++ ", dimensions=" ++
    String.intercalate commaSep (n.dimensions_.map toString) ++
    ", keepdim=" ++ (if n.keepdim_ then "1" else "0")

/-- Total extraction of a successful construction (used to name concrete
witness nodes). -/
def getOk (e : Except Err AMax) : AMax :=
  match e with
  | .ok a => a
  | .error _ => default

/-- The shape contract of a constructed AMax node: output rank is input rank
minus (0 when keepdim, else the number of reduced axes); with keepdim every
reduced axis becomes size 1 and every other axis keeps its size; without
keepdim the output lists exactly the sizes of the non-reduced axes in order. -/
def AMaxShapeSpec (input : Value) (D : List Int) (kd : Bool) (n : AMax) : Prop :=
  n.base.shape.dims.length = input.shape.dims.length - (if kd then 0 else D.length)
  ∧ (kd = true → n.base.shape.dims =
      input.shape.dims.enum.map fun p => if (p.1 : Int) ∈ D then 1 else p.2)
  ∧ (kd = false → n.base.shape.dims =
      ((input.shape.dims.enum.filter fun p => decide ((p.1 : Int) ∉ D)).map Prod.snd))

/-- Concrete operand: a value of shape [3, 4]. -/
def v0 : Value := ⟨1, 0, ⟨[3, 4]⟩, 5⟩

/-- A distinct value with the same shape as `v0` but different identity and
structural hash (used as the substituted clone operand). -/
def v1 : Value := ⟨2, 0, ⟨[3, 4]⟩, 9⟩

/-- A value structurally equal to `v0` (same structural hash and shape) held by
a different node object. -/
def v2 : Value := ⟨3, 0, ⟨[3, 4]⟩, 5⟩

/-- A concrete lowering context mapping each value to a parameter handle. -/
def loctx0 : LoweringContext := ⟨fun v => XlaOp.param v.id v.shape⟩

/-- The node built over `v0` reducing axis 1 without keepdim. -/
def w1 : AMax := getOk (AMax.make v0 [1] false)

/-- The node built over `v0` reducing axis 1 with keepdim. -/
def w5a : AMax := getOk (AMax.make v0 [1] true)

/-- The node built over `v2` reducing axis 1 with keepdim. -/
def w5b : AMax := getOk (AMax.make v2 [1] true)


theorem reduceSizes_nil_dims (keepdim : Bool) : ∀ (i : Nat) (l : List Nat),
    reduceSizes [] keepdim i l = l
  | _, [] => rfl
  | i, s :: rest => by
      simp [reduceSizes, reduceSizes_nil_dims keepdim (i + 1) rest]

theorem reduceSizes_true_eq (D : List Int) : ∀ (i : Nat) (l : List Nat),
    reduceSizes D true i l =
      (l.enumFrom i).map fun p => if (p.1 : Int) ∈ D then 1 else p.2
  | _, [] => rfl
  | i, s :: rest => by
      by_cases hm : (i : Int) ∈ D <;>
        simp [reduceSizes, List.enumFrom, hm, reduceSizes_true_eq D (i + 1) rest]

theorem reduceSizes_false_eq (D : List Int) : ∀ (i : Nat) (l : List Nat),
    reduceSizes D false i l =
      ((l.enumFrom i).filter fun p => decide ((p.1 : Int) ∉ D)).map Prod.snd
  | _, [] => rfl
  | i, s :: rest => by
      by_cases hm : (i : Int) ∈ D <;>
        simp [reduceSizes, List.enumFrom, hm, reduceSizes_false_eq D (i + 1) rest]

theorem reduceSizes_true_length (D : List Int) (i : Nat) (l : List Nat) :
    (reduceSizes D true i l).length = l.length := by
  simp [reduceSizes_true_eq]

theorem countP_ge_of_not_mem (i : Int) : ∀ (D : List Int), i ∉ D →
    D.countP (fun d => decide (i ≤ d)) = D.countP (fun d => decide (i + 1 ≤ d))
  | [], _ => rfl
  | d :: D, h => by
      have hdi : ¬ d = i := fun hh => h (hh ▸ List.mem_cons_self d D)
      have hD : i ∉ D := fun hh => h (List.mem_cons_of_mem d hh)
      rw [List.countP_cons, List.countP_cons, countP_ge_of_not_mem i D hD]
      have hiff : (i ≤ d) ↔ (i + 1 ≤ d) := by omega
      simp [hiff]

theorem countP_ge_of_mem (i : Int) : ∀ (D : List Int), D.Nodup → i ∈ D →
    D.countP (fun d => decide (i ≤ d)) = D.countP (fun d => decide (i + 1 ≤ d)) + 1
  | [], _, h => absurd h (List.not_mem_nil i)
  | d :: D, hnd, h => by
      rcases List.nodup_cons.mp hnd with ⟨hd, hD⟩
      rw [List.countP_cons, List.countP_cons]
      by_cases hdi : d = i
      · subst hdi
        rw [countP_ge_of_not_mem d D hd]
        have h1 : decide (d ≤ d) = true := by simp
        have h2 : decide (d + 1 ≤ d) = false := by simp
        rw [h1, h2]
        simp
      · have hD' : i ∈ D := by
          rcases List.mem_cons.mp h with h1 | h1
          · exact absurd h1.symm hdi
          · exact h1
        rw [countP_ge_of_mem i D hD hD']
        have hiff : (i ≤ d) ↔ (i + 1 ≤ d) := by omega
        by_cases hle : i + 1 ≤ d
        · simp [hiff, hle]
        · simp [hiff, hle]

theorem reduceSizes_false_length_aux (D : List Int) (hnd : D.Nodup) :
    ∀ (l : List Nat) (i : Nat), (∀ d ∈ D, d < (i : Int) + l.length) →
      (reduceSizes D false i l).length +
        D.countP (fun d => decide ((i : Int) ≤ d)) = l.length
  | [], i, hb => by
      have h0 : D.countP (fun d => decide ((i : Int) ≤ d)) = 0 := by
        rw [List.countP_eq_zero]
        intro d hd
        have hlt := hb d hd
        simp only [List.length_nil, Nat.cast_zero, add_zero] at hlt
        simp
        omega
      simp [reduceSizes, h0]
  | s :: rest, i, hb => by
      have hb' : ∀ d ∈ D, d < ((i + 1 : Nat) : Int) + rest.length := by
        intro d hd
        have hlt := hb d hd
        simp only [List.length_cons] at hlt
        push_cast at hlt ⊢
        omega
      have ih := reduceSizes_false_length_aux D hnd rest (i + 1) hb'
      push_cast at ih
      by_cases hm : (i : Int) ∈ D
      · rw [countP_ge_of_mem (i : Int) D hnd hm]
        simp only [reduceSizes, if_pos hm, if_neg Bool.false_ne_true, List.length_cons]
        omega
      · rw [countP_ge_of_not_mem (i : Int) D hm]
        simp only [reduceSizes, if_neg hm, List.length_cons]
        omega

theorem reduceSizes_false_length (D : List Int) (l : List Nat) (hnd : D.Nodup)
    (hb : ∀ d ∈ D, 0 ≤ d ∧ d < (l.length : Int)) :
    (reduceSizes D false 0 l).length + D.length = l.length := by
  have haux := reduceSizes_false_length_aux D hnd l 0 (by
    intro d hd
    have := (hb d hd).2
    push_cast
    omega)
  have hall : D.countP (fun d => decide ((0 : Int) ≤ d)) = D.length := by
    rw [List.countP_eq_length]
    intro d hd
    simpa using (hb d hd).1
  simpa [hall] using haux

/-- Inversion of a successful AMax construction: the trial-lowering shape
computation succeeded and the node's fields are exactly the constructor's. -/
theorem AMax.make_inv (input : Value) (D : List Int) (kd : Bool) (n : AMax)
    (h : AMax.make input D kd = .ok n) :
    ∃ s, BuildMaxInDimsShape input.shape D kd = .ok s ∧
      n = ⟨⟨⟨.argmax⟩, [input], s, 1, Node.hashOf ⟨.argmax⟩ [input] (MHash D kd)⟩, D, kd⟩ := by
  have h' : (((BuildMaxInDimsShape input.shape D kd).map fun s =>
      (⟨⟨.argmax⟩, [input], s, 1, Node.hashOf ⟨.argmax⟩ [input] (MHash D kd)⟩ : Node)).map
      fun b => (⟨b, D, kd⟩ : AMax)) = .ok n := h
  cases hbs : BuildMaxInDimsShape input.shape D kd with
  | error e =>
      rw [hbs] at h'
      simp [Except.map] at h'
  | ok s =>
      rw [hbs] at h'
      simp [Except.map] at h'
      exact ⟨s, rfl, h'.symm⟩

/-- C1: for every valid (input shape, dimension list, keepdim) combination, a
constructed AMax node's output rank is the input rank minus (0 if keepdim else
the number of reduced axes) and every non-reduced axis keeps its exact size. -/
theorem amax_output_shape (input : Value) (D : List Int) (kd : Bool) (n : AMax)
    (hnd : D.Nodup) (hb : ∀ d ∈ D, 0 ≤ d ∧ d < (input.shape.dims.length : Int))
    (hmk : AMax.make input D kd = .ok n) : AMaxShapeSpec input D kd n := by
  rcases AMax.make_inv input D kd n hmk with ⟨s, hbs, hn⟩
  have hcond : (D.all fun d => decide (0 ≤ d ∧ d < (input.shape.dims.length : Int))) = true := by
    rw [List.all_eq_true]
    intro d hd
    exact decide_eq_true (hb d hd)
  rw [BuildMaxInDimsShape, if_pos hcond] at hbs
  have hs : s = ⟨reduceSizes D kd 0 input.shape.dims⟩ := by
    injection hbs with hh
    exact hh.symm
  subst hs
  subst hn
  cases kd with
  | true =>
      refine ⟨?_, fun _ => ?_, fun hk => absurd hk (by decide)⟩
      · simp [reduceSizes_true_length]
      · simp [reduceSizes_true_eq, List.enum]
  | false =>
      have hlen := reduceSizes_false_length D input.shape.dims hnd hb
      refine ⟨?_, fun hk => absurd hk (by decide), fun _ => ?_⟩
      · simp only [if_neg Bool.false_ne_true]
        omega
      · simp [reduceSizes_false_eq, List.enum]

/-- C2: constructing an AMax node with a reduction dimension at or beyond the
input's rank fails eagerly, during construction, with IndexOutOfRange — it is
not clamped, wrapped, or deferred to lowering. -/
theorem amax_construct_out_of_range (input : Value) (D : List Int) (kd : Bool) (d : Int)
    (hd : d ∈ D) (hge : (input.shape.dims.length : Int) ≤ d) :
    AMax.make input D kd = .error .IndexOutOfRange := by
  have hbs : BuildMaxInDimsShape input.shape D kd = .error .IndexOutOfRange := by
    unfold BuildMaxInDimsShape
    rw [if_neg]
    intro hall
    have := (List.all_eq_true.mp hall) d hd
    simp at this
    omega
  show (((BuildMaxInDimsShape input.shape D kd).map fun s =>
      (⟨⟨.argmax⟩, [input], s, 1, Node.hashOf ⟨.argmax⟩ [input] (MHash D kd)⟩ : Node)).map
      fun b => (⟨b, D, kd⟩ : AMax)) = .error .IndexOutOfRange
  rw [hbs]
  rfl

/-- C3 (supporting evidence for the header bug): the amax.cpp constructor does
store the constructor's dimension list in `dimensions_` and the flag in
`keepdim_`, and the header's `keepdim()` accessor returns that flag; the
header's `dim()` accessor, however, reads an undeclared member and cannot
return the stored axes (see the development notes). -/
theorem amax_cpp_stores_params (input : Value) (D : List Int) (kd : Bool) (n : AMax)
    (hmk : AMax.make input D kd = .ok n) :
    n.dimensions_ = D ∧ AMax.keepdim n = kd := by
  rcases AMax.make_inv input D kd n hmk with ⟨s, _, hn⟩
  subst hn
  exact ⟨rfl, rfl⟩

/-- C4: cloning an AMax node with a substituted operand of the same shape
yields a node with the same stored dimensions, keepdim flag and output shape:
the shape depends only on the operand's shape and the op parameters. -/
theorem amax_clone_same_shape (input v : Value) (D : List Int) (kd : Bool) (n : AMax)
    (hmk : AMax.make input D kd = .ok n) (hsh : v.shape = input.shape) :
    ∃ m, n.Clone [v] = .ok m ∧ m.dimensions_ = n.dimensions_ ∧
      m.keepdim_ = n.keepdim_ ∧ m.base.shape = n.base.shape := by
  rcases AMax.make_inv input D kd n hmk with ⟨s, hbs, hn⟩
  subst hn
  refine ⟨⟨⟨⟨.argmax⟩, [v], s, 1, Node.hashOf ⟨.argmax⟩ [v] (MHash D kd)⟩, D, kd⟩,
    ?_, rfl, rfl, rfl⟩
  show (((BuildMaxInDimsShape v.shape D kd).map fun s0 =>
      (⟨⟨.argmax⟩, [v], s0, 1, Node.hashOf ⟨.argmax⟩ [v] (MHash D kd)⟩ : Node)).map
      fun b => (⟨b, D, kd⟩ : AMax)) = _
  rw [hsh, hbs]
  rfl

/-- C5: the structural hash of an AMax node is a pure function of operation
kind, operand structural hashes and op parameters: identical parameters over
structurally equal operands hash equal. -/
theorem amax_structural_hash (v1 v2 : Value) (D : List Int) (kd : Bool) (n1 n2 : AMax)
    (h1 : AMax.make v1 D kd = .ok n1) (h2 : AMax.make v2 D kd = .ok n2)
    (hh : v1.hash = v2.hash) : n1.base.hash = n2.base.hash := by
  rcases AMax.make_inv v1 D kd n1 h1 with ⟨s1, _, hn1⟩
  rcases AMax.make_inv v2 D kd n2 h2 with ⟨s2, _, hn2⟩
  subst hn1
  subst hn2
  simp [Node.hashOf, hashList, hh]

/-- C6: Lower fetches the backend handle of the node's single operand from the
context, applies BuildMaxInDims with the stored dimensions and keepdim flag,
and returns exactly that one output handle. -/
theorem amax_lower_builds_max (input : Value) (D : List Int) (kd : Bool) (n : AMax)
    (loctx : LoweringContext) (hmk : AMax.make input D kd = .ok n) :
    n.Lower loctx = [BuildMaxInDims (loctx.GetOutputOp input) D kd] := by
  rcases AMax.make_inv input D kd n hmk with ⟨s, _, hn⟩
  subst hn
  rfl

/-- C7: the shape computed at construction through the shape-inference helper
equals the shape of the backend expression Lower emits for the same operand
shape — both go through the same BuildMaxInDims path. -/
theorem amax_shape_agrees_with_lowering (input : Value) (D : List Int) (kd : Bool)
    (n : AMax) (loctx : LoweringContext)
    (hmk : AMax.make input D kd = .ok n)
    (hop : (loctx.GetOutputOp input).shape = .ok input.shape) :
    ∃ op, n.Lower loctx = [op] ∧ op.shape = .ok n.base.shape := by
  rcases AMax.make_inv input D kd n hmk with ⟨s, hbs, hn⟩
  subst hn
  refine ⟨BuildMaxInDims (loctx.GetOutputOp input) D kd, rfl, ?_⟩
  show ((loctx.GetOutputOp input).shape).bind (fun s0 => BuildMaxInDimsShape s0 D kd) = .ok s
  rw [hop]
  exact hbs

/-- C8: an empty dimension list is legal for any input and keepdim flag and the
resulting node's output shape is identical to the input's shape. -/
theorem amax_empty_dims_identity (input : Value) (kd : Bool) :
    ∃ n, AMax.make input [] kd = .ok n ∧ n.base.shape = input.shape := by
  refine ⟨⟨⟨⟨.argmax⟩, [input], input.shape, 1,
    Node.hashOf ⟨.argmax⟩ [input] (MHash [] kd)⟩, [], kd⟩, ?_, rfl⟩
  have hbs : BuildMaxInDimsShape input.shape [] kd = .ok input.shape := by
    unfold BuildMaxInDimsShape
    rw [if_pos (by simp), reduceSizes_nil_dims]
  show (((BuildMaxInDimsShape input.shape [] kd).map fun s0 =>
      (⟨⟨.argmax⟩, [input], s0, 1, Node.hashOf ⟨.argmax⟩ [input] (MHash [] kd)⟩ : Node)).map
      fun b => (⟨b, [], kd⟩ : AMax)) = _
  rw [hbs]
  rfl

/-- C9: ToString returns the base Node representation with the joined dimension
list and the keepdim flag appended. -/
theorem amax_to_string_appends (input : Value) (D : List Int) (kd : Bool) (n : AMax)
    (hmk : AMax.make input D kd = .ok n) :
    AMax.ToString n = Node.ToString n.base ++ ", dimensions=" ++
      String.intercalate commaSep (D.map toString) ++ ", keepdim=" ++
      (if kd then "1" else "0") := by
  rcases AMax.make_inv input D kd n hmk with ⟨s, _, hn⟩
  subst hn
  rfl

/-- C10: every constructed AMax node carries the op-kind tag of the aten argmax
operator, not an amax tag, so it is indistinguishable by op-kind from an
argmax node. -/
theorem amax_op_kind_is_argmax (input : Value) (D : List Int) (kd : Bool) (n : AMax)
    (hmk : AMax.make input D kd = .ok n) :
    n.base.op = ⟨AtenSymbol.argmax⟩ ∧ n.base.op ≠ ⟨AtenSymbol.amax⟩ := by
  rcases AMax.make_inv input D kd n hmk with ⟨s, _, hn⟩
  subst hn
  exact ⟨rfl, by simp⟩

/-- Witness for C1 at input shape [3, 4], dimensions [1], keepdim = false. -/
theorem amax_output_shape_w :
    ([1] : List Int).Nodup ∧ (∀ d ∈ ([1] : List Int), 0 ≤ d ∧ d < (v0.shape.dims.length : Int))
      ∧ AMax.make v0 [1] false = .ok w1 ∧ AMaxShapeSpec v0 [1] false w1 :=
  ⟨by decide, by decide, rfl, amax_output_shape v0 [1] false w1 (by decide) (by decide) rfl⟩

/-- Witness for C2 at input shape [3, 4] and dimension 2. -/
theorem amax_construct_out_of_range_w :
    (2 : Int) ∈ ([2] : List Int) ∧ (v0.shape.dims.length : Int) ≤ 2 ∧
      AMax.make v0 [2] false = .error .IndexOutOfRange :=
  ⟨by decide, by decide, amax_construct_out_of_range v0 [2] false 2 (by decide) (by decide)⟩

/-- Witness for C3's supporting theorem at dimensions [1], keepdim = false. -/
theorem amax_cpp_stores_params_w :
    AMax.make v0 [1] false = .ok w1 ∧ w1.dimensions_ = [1] ∧ AMax.keepdim w1 = false :=
  ⟨rfl, (amax_cpp_stores_params v0 [1] false w1 rfl).1, (amax_cpp_stores_params v0 [1] false w1 rfl).2⟩

/-- Witness for C4: clone with a same-shape operand of different identity. -/
theorem amax_clone_same_shape_w :
    AMax.make v0 [1] false = .ok w1 ∧ v1.shape = v0.shape ∧
      (∃ m, w1.Clone [v1] = .ok m ∧ m.dimensions_ = w1.dimensions_ ∧
        m.keepdim_ = w1.keepdim_ ∧ m.base.shape = w1.base.shape) :=
  ⟨rfl, rfl, amax_clone_same_shape v0 v1 [1] false w1 rfl rfl⟩

/-- Witness for C5: two structurally equal operands held by different nodes. -/
theorem amax_structural_hash_w :
    AMax.make v0 [1] true = .ok w5a ∧ AMax.make v2 [1] true = .ok w5b ∧
      v0.hash = v2.hash ∧ w5a.base.hash = w5b.base.hash :=
  ⟨rfl, rfl, rfl, amax_structural_hash v0 v2 [1] true w5a w5b rfl rfl rfl⟩

/-- Witness for C6 under a concrete lowering context. -/
theorem amax_lower_builds_max_w :
    AMax.make v0 [1] false = .ok w1 ∧
      w1.Lower loctx0 = [BuildMaxInDims (loctx0.GetOutputOp v0) [1] false] :=
  ⟨rfl, amax_lower_builds_max v0 [1] false w1 loctx0 rfl⟩

/-- Witness for C7 under a concrete lowering context. -/
theorem amax_shape_agrees_with_lowering_w :
    AMax.make v0 [1] false = .ok w1 ∧ (loctx0.GetOutputOp v0).shape = .ok v0.shape ∧
      (∃ op, w1.Lower loctx0 = [op] ∧ op.shape = .ok w1.base.shape) :=
  ⟨rfl, rfl, amax_shape_agrees_with_lowering v0 [1] false w1 loctx0 rfl rfl⟩

/-- Witness for C9 at dimensions [1], keepdim = false. -/
theorem amax_to_string_appends_w :
    AMax.make v0 [1] false = .ok w1 ∧
      AMax.ToString w1 = Node.ToString w1.base ++ ", dimensions=" ++
        String.intercalate commaSep (([1] : List Int).map toString) ++ ", keepdim=" ++
        (if false then "1" else "0") :=
  ⟨rfl, amax_to_string_appends v0 [1] false w1 rfl⟩

/-- Witness for C10. -/
theorem amax_op_kind_is_argmax_w :
    AMax.make v0 [1] false = .ok w1 ∧
      w1.base.op = ⟨AtenSymbol.argmax⟩ ∧ w1.base.op ≠ ⟨AtenSymbol.amax⟩ :=
  ⟨rfl, amax_op_kind_is_argmax v0 [1] false w1 rfl⟩

end TorchXla
